import Mathlib

/-!
Shallow embedding of the falling-block simulation engine and the network
relay of the rest-express repository.

The simulation engine lives in the TetrisGame component: `collide`, `merge`,
`clearLines`, `drop`, `move`, `rotate`, `hardDrop`, `startGame`, `pauseGame`,
`restartGame`, `handleAction`.  Pieces and the JS game-state record are
embedded directly; the `dropIntervalRef` gravity timer is carried as an
explicit `Option Int` field of a `Machine` wrapper (`some v` = a timer is
scheduled with interval `v` ms, `none` = no timer).  Calls to `randomPiece()`
are determinized by passing the freshly generated piece(s) as arguments.
Rendering, sounds, React state mirrors, localStorage and the hatch animation
are outside the model.
-/

def COLS : Nat := 10
def ROWS : Nat := 20

structure Piece where
  shape : List (List Nat)
  color : String
  x : Int
  y : Int
deriving DecidableEq

structure GameState where
  board : List (List Nat)
  boardColors : List (List (Option String))
  piece : Piece
  nextPiece : Piece
  score : Nat
  lines : Nat
  level : Nat
  isRunning : Bool
  isPaused : Bool
  isGameOver : Bool
deriving DecidableEq

/-- The JS game state together with the `dropIntervalRef` gravity timer. -/
structure Machine where
  game : GameState
  dropInterval : Option Int
deriving DecidableEq

def createEmptyBoard : List (List Nat) :=
  List.replicate ROWS (List.replicate COLS 0)

def createEmptyColorBoard : List (List (Option String)) :=
  List.replicate ROWS (List.replicate COLS none)

/-- Embeds `board[newY]?.[newX] !== 0`: a missing row or cell (`undefined`)
compares as not-equal-to-zero, hence `true`. -/
def cellNonzero (board : List (List Nat)) (ny nx : Int) : Bool :=
  match board.get? ny.toNat with
  | some row =>
    match row.get? nx.toNat with
    | some v => v != 0
    | none => true
  | none => true

/-- Embeds `collide(piece, board)`. -/
def collide (p : Piece) (board : List (List Nat)) : Bool :=
  (List.range p.shape.length).any fun dy =>
    let row := p.shape.getD dy []
    (List.range row.length).any fun dx =>
      row.getD dx 0 != 0 &&
        (decide (p.x + (dx : Int) < 0) ||
         decide ((COLS : Int) ≤ p.x + (dx : Int)) ||
         decide ((ROWS : Int) ≤ p.y + (dy : Int)) ||
         (decide (0 ≤ p.y + (dy : Int)) &&
          cellNonzero board (p.y + (dy : Int)) (p.x + (dx : Int))))

/-- Writes one grid cell.  Negative indices are no-ops: in JS,
`board[-1][x] = v` stores a non-index property and never touches the grid. -/
def setCell2 {α : Type} (rows : List (List α)) (y x : Int) (v : α) :
    List (List α) :=
  if 0 ≤ y ∧ 0 ≤ x then
    rows.set y.toNat ((rows.getD y.toNat []).set x.toNat v)
  else rows

/-- Embeds `merge(piece, board, boardColors)`: stamp every occupied cell with
`piece.y + dy >= 0` into the board (as 1) and the color board. -/
def mergeCells (p : Piece) (board : List (List Nat))
    (colors : List (List (Option String))) :
    List (List Nat) × List (List (Option String)) :=
  (List.range p.shape.length).foldl
    (fun acc dy =>
      let row := p.shape.getD dy []
      (List.range row.length).foldl
        (fun acc2 dx =>
          if row.getD dx 0 != 0 && decide (0 ≤ p.y + (dy : Int)) then
            (setCell2 acc2.1 (p.y + (dy : Int)) (p.x + (dx : Int)) 1,
             setCell2 acc2.2 (p.y + (dy : Int)) (p.x + (dx : Int)) (some p.color))
          else acc2)
        acc)
    (board, colors)

/-- Embeds `board[y].every((cell) => cell !== 0)`. -/
def isFullRow (r : List Nat) : Bool := r.all (fun c => c != 0)

def emptyRow : List Nat := List.replicate COLS 0

def emptyColorRow : List (Option String) := List.replicate COLS none

/-- Embeds the `clearLines` loop body.  The argument `y + 1` means row index
`y` is the next to examine (the source walks `y` from `ROWS - 1` down to 0).
When row `y` is full, `splice(y, 1)` plus `unshift(empty)` becomes
`empty :: eraseIdx y`, and the `y++` of the source re-examines the same
index; the fuel (strictly larger than the iteration count) makes the
recursion structural. -/
def clearLoop :
    Nat → List (List Nat) → List (List (Option String)) → Nat → Nat →
    List (List Nat) × List (List (Option String)) × Nat
  | 0, board, colors, _, k => (board, colors, k)
  | _ + 1, board, colors, 0, k => (board, colors, k)
  | fuel + 1, board, colors, y + 1, k =>
    if isFullRow (board.getD y []) then
      clearLoop fuel (emptyRow :: board.eraseIdx y)
        (emptyColorRow :: colors.eraseIdx y) (y + 1) (k + 1)
    else
      clearLoop fuel board colors y k

/-- Embeds `clearLines(board, boardColors)`; returns the new board, the new
color board and the number of cleared lines. -/
def clearLines (board : List (List Nat))
    (colors : List (List (Option String))) :
    List (List Nat) × List (List (Option String)) × Nat :=
  clearLoop (2 * ROWS + 2) board colors ROWS 0

def linePoints : List Nat := [0, 100, 300, 500, 800]

/-- Embeds `Math.max(100, 700 - (state.level - 1) * 50)`. -/
def speed (level : Nat) : Int := max 100 (700 - ((level : Int) - 1) * 50)

/-- Embeds the lock branch of `drop`: merge the piece, clear lines, update
score/lines/level on a positive clear, reschedule the gravity timer when one
is running, then promote the next piece and queue the fresh one. -/
def dropLocked (m : Machine) (fresh : Piece) : Machine :=
  let s := m.game
  let bc := mergeCells s.piece s.board s.boardColors
  let r := clearLines bc.1 bc.2
  let cleared := r.2.2
  let scored :=
    if 0 < cleared then
      { s with board := r.1, boardColors := r.2.1,
               score := s.score + linePoints.getD cleared 0 * s.level,
               lines := s.lines + cleared,
               level := (s.lines + cleared) / 10 + 1 }
    else { s with board := r.1, boardColors := r.2.1 }
  let ti :=
    if 0 < cleared then
      if m.dropInterval.isSome then some (speed scored.level)
      else m.dropInterval
    else m.dropInterval
  { m with game := { scored with piece := s.nextPiece, nextPiece := fresh },
           dropInterval := ti }

/-- Embeds `drop()` (the gravity step, also reached from the player's
soft-drop and from `hardDrop`); `fresh` stands for the `randomPiece()`
generated when a lock promotes the queued piece. -/
def drop (m : Machine) (fresh : Piece) : Machine :=
  if m.game.isPaused || m.game.isGameOver then m
  else if collide { m.game.piece with y := m.game.piece.y + 1 } m.game.board then
    if m.game.piece.y ≤ 0 then
      { m with game := { m.game with isGameOver := true }, dropInterval := none }
    else dropLocked m fresh
  else
    { m with game :=
        { m.game with piece := { m.game.piece with y := m.game.piece.y + 1 } } }

/-- Embeds `move(dir)`. -/
def move (m : Machine) (dir : Int) : Machine :=
  if !m.game.isRunning || m.game.isPaused || m.game.isGameOver then m
  else
    let np := { m.game.piece with x := m.game.piece.x + dir }
    if !(collide np m.game.board) then
      { m with game := { m.game with piece := np } }
    else m

/-- Embeds `shape[0].map((_, i) => shape.map((row) => row[i]).reverse())`:
for each column index, the column read top-to-bottom, reversed. -/
def rotateMatrix (shape : List (List Nat)) : List (List Nat) :=
  (List.range (shape.headD []).length).map fun i =>
    (shape.map (fun row => row.getD i 0)).reverse

/-- Modelled from the spec's words "transpose": the matrix whose rows are the
columns of the input (used only to compare with the source's rotation). -/
def transposeSpec (m : List (List Nat)) : List (List Nat) :=
  (List.range (m.headD []).length).map fun i => m.map (fun row => row.getD i 0)

/-- Modelled from the spec's words "transpose followed by row-reverse". -/
def rotateCWspec (m : List (List Nat)) : List (List Nat) :=
  (transposeSpec m).map List.reverse

def kickOffsets : List Int := [-1, 1, -2, 2]

/-- Embeds `rotate()`: the wall-kick loop's first accepted offset is the
first element of `kickOffsets` whose shifted placement does not collide. -/
def rotate (m : Machine) : Machine :=
  if !m.game.isRunning || m.game.isPaused || m.game.isGameOver then m
  else
    let newPiece := { m.game.piece with shape := rotateMatrix m.game.piece.shape }
    if !(collide newPiece m.game.board) then
      { m with game := { m.game with piece := newPiece } }
    else
      match kickOffsets.find?
          (fun o => !(collide { newPiece with x := newPiece.x + o } m.game.board)) with
      | some o =>
        { m with game :=
            { m.game with piece := { newPiece with x := newPiece.x + o } } }
      | none => m

/-- Embeds the `while (!collide(...down...))` loop of `hardDrop`: returns the
final piece and the number of rows descended. -/
def descend : Nat → Piece → List (List Nat) → Piece × Nat
  | 0, p, _ => (p, 0)
  | fuel + 1, p, board =>
    if collide { p with y := p.y + 1 } board then (p, 0)
    else
      let r := descend fuel { p with y := p.y + 1 } board
      (r.1, r.2 + 1)

/-- Fuel that strictly dominates the number of iterations of the hard-drop
loop whenever the shape has at least one occupied cell. -/
def hardFuel (p : Piece) : Nat := ((ROWS : Int) - p.y).toNat + 1

/-- Embeds `hardDrop()`: descend to rest, award 2 points per row descended,
then perform one lock-triggering gravity step. -/
def hardDrop (m : Machine) (fresh : Piece) : Machine :=
  if !m.game.isRunning || m.game.isPaused || m.game.isGameOver then m
  else
    let r := descend (hardFuel m.game.piece) m.game.piece m.game.board
    drop { m with game :=
      { m.game with piece := r.1, score := m.game.score + 2 * r.2 } } fresh

/-- Embeds `startGame()`; `p`, `q` are the two `randomPiece()` results used
when a fresh run begins. -/
def startGame (m : Machine) (p q : Piece) : Machine :=
  let s := m.game
  let s1 :=
    if s.isGameOver || !s.isRunning then
      { s with board := createEmptyBoard, boardColors := createEmptyColorBoard,
               piece := p, nextPiece := q, score := 0, lines := 0, level := 1,
               isGameOver := false, isPaused := false }
    else s
  let s2 := { s1 with isRunning := true, isPaused := false }
  { m with game := s2, dropInterval := some (speed s2.level) }

/-- Embeds `pauseGame()`: toggles `isPaused`, cancelling the gravity timer on
pause and rescheduling it on resume. -/
def pauseGame (m : Machine) : Machine :=
  if !m.game.isRunning || m.game.isGameOver then m
  else
    let g := { m.game with isPaused := !m.game.isPaused }
    if g.isPaused then { m with game := g, dropInterval := none }
    else { m with game := g, dropInterval := some (speed g.level) }

/-- Embeds `restartGame()`; note the source leaves `dropIntervalRef` alone. -/
def restartGame (m : Machine) (p q : Piece) : Machine :=
  { m with game :=
      { board := createEmptyBoard, boardColors := createEmptyColorBoard,
        piece := p, nextPiece := q, score := 0, lines := 0, level := 1,
        isGameOver := false, isPaused := false, isRunning := true } }

/-- Embeds `handleAction(action)`; the pieces `p`, `q` determinize any
`randomPiece()` calls the chosen operation makes. -/
def handleAction (m : Machine) (action : String) (p q : Piece) : Machine :=
  match action with
  | "start" => startGame m p q
  | "pause" => pauseGame m
  | "restart" => restartGame m p q
  | "left" => move m (-1)
  | "right" => move m 1
  | "rotate" => rotate m
  | "drop" => hardDrop m p
  | "softdrop" => drop m p
  | _ => m

/-- The initial `gameStateRef` contents with timer unscheduled; `p`, `q` are
the two initial `randomPiece()` results. -/
def initMachine (p q : Piece) : Machine :=
  { game := { board := createEmptyBoard, boardColors := createEmptyColorBoard,
              piece := p, nextPiece := q, score := 0, lines := 0, level := 1,
              isRunning := false, isPaused := false, isGameOver := false },
    dropInterval := none }

/-- States reachable from the initial machine through the operations of the
component. -/
inductive Reach : Machine → Prop where
  | init (p q : Piece) : Reach (initMachine p q)
  | step_drop (m : Machine) (f : Piece) : Reach m → Reach (drop m f)
  | step_move (m : Machine) (d : Int) : Reach m → Reach (move m d)
  | step_rotate (m : Machine) : Reach m → Reach (rotate m)
  | step_hard (m : Machine) (f : Piece) : Reach m → Reach (hardDrop m f)
  | step_start (m : Machine) (p q : Piece) : Reach m → Reach (startGame m p q)
  | step_pause (m : Machine) : Reach m → Reach (pauseGame m)
  | step_restart (m : Machine) (p q : Piece) : Reach m → Reach (restartGame m p q)

/-- Does the shape have at least one occupied cell? -/
def shapeOccupied (shape : List (List Nat)) : Bool :=
  shape.any fun row => row.any fun c => c != 0

/-- Row index (in board coordinates) of the topmost occupied row of the
piece's cell matrix. -/
def topRowIdx (p : Piece) : Int :=
  p.y + (p.shape.findIdx (fun r => r.any (fun c => c != 0)) : Int)

/-- Embeds the connection registry of the socket.io relay (`routes.ts`). -/
structure RelayState where
  peers : List Nat
deriving DecidableEq

/-- Embeds the `socket.on("control", ...)` handler: `socket.broadcast.emit`
delivers the payload unchanged to every connected peer except the sender; the
handler mutates no server state. -/
def onControl (st : RelayState) (sender : Nat) (action : String) :
    RelayState × List (Nat × String) :=
  (st, (st.peers.filter (fun p => p != sender)).map (fun p => (p, action)))

/-! ### Helper lemmas about the gravity step -/

lemma drop_noop (m : Machine) (f : Piece)
    (h : m.game.isPaused = true ∨ m.game.isGameOver = true) : drop m f = m := by
  unfold drop
  rcases h with h | h <;> simp [h]

lemma dropLocked_isGameOver (m : Machine) (f : Piece) :
    (dropLocked m f).game.isGameOver = m.game.isGameOver := by
  unfold dropLocked
  dsimp only
  split <;> rfl

lemma drop_top_eq (m : Machine) (f : Piece)
    (hp : m.game.isPaused = false) (hg : m.game.isGameOver = false)
    (hc : collide { m.game.piece with y := m.game.piece.y + 1 } m.game.board = true)
    (hy : m.game.piece.y ≤ 0) :
    drop m f =
      { m with game := { m.game with isGameOver := true }, dropInterval := none } := by
  unfold drop
  simp [hp, hg, hc, hy]

lemma drop_gameOver_cases (m : Machine) (f : Piece) :
    (drop m f).game.isGameOver = true →
    m.game.isGameOver = true ∨
      (collide { m.game.piece with y := m.game.piece.y + 1 } m.game.board = true ∧
       m.game.piece.y ≤ 0) := by
  unfold drop
  split_ifs with h1 h2 h3
  · exact fun h => Or.inl h
  · exact fun _ => Or.inr ⟨h2, h3⟩
  · rw [dropLocked_isGameOver]
    exact fun h => Or.inl h
  · exact fun h => Or.inl h

lemma move_isGameOver (m : Machine) (d : Int) :
    (move m d).game.isGameOver = m.game.isGameOver := by
  unfold move
  dsimp only
  split_ifs <;> rfl

lemma rotate_isGameOver (m : Machine) :
    (rotate m).game.isGameOver = m.game.isGameOver := by
  unfold rotate
  dsimp only
  split
  · rfl
  · split
    · rfl
    · split <;> rfl

lemma pauseGame_isGameOver (m : Machine) :
    (pauseGame m).game.isGameOver = m.game.isGameOver := by
  unfold pauseGame
  dsimp only
  split_ifs <;> rfl

lemma startGame_isGameOver (m : Machine) (p q : Piece) :
    (startGame m p q).game.isGameOver = false := by
  cases hgo : m.game.isGameOver <;> cases hr : m.game.isRunning <;>
    simp [startGame, hgo, hr]

/-- C1: a gravity step whose downward move collides while the piece's topmost
occupied row is at most 0 transitions the run to `gameOver = true`, leaves
`running` unchanged (in particular true when it was true), and cancels the
gravity timer; moreover the gravity step is the only operation that ever sets
`gameOver` (the other operations preserve or clear it, and `hardDrop` can set
it only through its final gravity step, under the same lock-at-top
condition). -/
theorem c1_game_over_trigger :
    (∀ (m : Machine) (f : Piece),
      m.game.isPaused = false → m.game.isGameOver = false →
      collide { m.game.piece with y := m.game.piece.y + 1 } m.game.board = true →
      (m.game.piece.shape.headD []).any (fun c => c != 0) = true →
      topRowIdx m.game.piece ≤ 0 →
      drop m f =
        { m with game := { m.game with isGameOver := true }, dropInterval := none })
    ∧ (∀ (m : Machine) (f : Piece),
      (drop m f).game.isGameOver = true →
      m.game.isGameOver = true ∨
        (collide { m.game.piece with y := m.game.piece.y + 1 } m.game.board = true ∧
         m.game.piece.y ≤ 0))
    ∧ (∀ (m : Machine) (d : Int), (move m d).game.isGameOver = m.game.isGameOver)
    ∧ (∀ (m : Machine), (rotate m).game.isGameOver = m.game.isGameOver)
    ∧ (∀ (m : Machine), (pauseGame m).game.isGameOver = m.game.isGameOver)
    ∧ (∀ (m : Machine) (p q : Piece), (startGame m p q).game.isGameOver = false)
    ∧ (∀ (m : Machine) (p q : Piece), (restartGame m p q).game.isGameOver = false)
    ∧ (∀ (m : Machine) (f : Piece),
      (hardDrop m f).game.isGameOver = true →
      m.game.isGameOver = true ∨
        (∃ q : Piece,
          collide { q with y := q.y + 1 } m.game.board = true ∧ q.y ≤ 0)) := by
  refine ⟨?_, drop_gameOver_cases, move_isGameOver, rotate_isGameOver,
    pauseGame_isGameOver, startGame_isGameOver, fun _ _ _ => rfl, ?_⟩
  · intro m f hp hg hc hhead htop
    have hidx : m.game.piece.shape.findIdx (fun r => r.any (fun c => c != 0)) = 0 := by
      cases hsh : m.game.piece.shape with
      | nil => rw [hsh] at hhead; simp at hhead
      | cons r t =>
        rw [hsh] at hhead
        simp only [List.headD_cons] at hhead
        rw [List.findIdx_cons]
        simp [hhead]
    have hy : m.game.piece.y ≤ 0 := by
      unfold topRowIdx at htop
      rw [hidx] at htop
      simpa using htop
    exact drop_top_eq m f hp hg hc hy
  · intro m f h
    unfold hardDrop at h
    by_cases hg : (!m.game.isRunning || m.game.isPaused || m.game.isGameOver) = true
    · rw [if_pos hg] at h
      exact Or.inl h
    · rw [if_neg hg] at h
      dsimp only at h
      rcases drop_gameOver_cases _ _ h with h' | ⟨hc, hy⟩
      · exact Or.inl h'
      · exact Or.inr ⟨_, hc, hy⟩

/-- C9: when a gravity step triggers game over (downward move collides with
the piece's top row at or above row 0), the board, color board, score, lines,
level, queued next piece and active piece are all left exactly as they were:
nothing is merged, no clearing runs, no promotion happens; only `gameOver`
flips to true and the gravity timer is cancelled. -/
theorem c9_game_over_frame :
    ∀ (m : Machine) (f : Piece),
      m.game.isPaused = false → m.game.isGameOver = false →
      collide { m.game.piece with y := m.game.piece.y + 1 } m.game.board = true →
      m.game.piece.y ≤ 0 →
      (drop m f).game.board = m.game.board ∧
      (drop m f).game.boardColors = m.game.boardColors ∧
      (drop m f).game.score = m.game.score ∧
      (drop m f).game.lines = m.game.lines ∧
      (drop m f).game.level = m.game.level ∧
      (drop m f).game.nextPiece = m.game.nextPiece ∧
      (drop m f).game.piece = m.game.piece ∧
      (drop m f).game.isRunning = m.game.isRunning ∧
      (drop m f).game.isGameOver = true ∧
      (drop m f).dropInterval = none := by
  intro m f hp hg hc hy
  rw [drop_top_eq m f hp hg hc hy]
  exact ⟨rfl, rfl, rfl, rfl, rfl, rfl, rfl, rfl, rfl, rfl⟩

/-- C6: moveLeft, moveRight, rotate and hardDrop are guarded by
`running && !paused && !gameOver`; in any state violating that guard they
return the machine completely unchanged (hence equal board, piece, score,
lines and level) and never error. -/
theorem c6_illegal_state_noop :
    ∀ (m : Machine) (f : Piece),
      m.game.isRunning = false ∨ m.game.isPaused = true ∨ m.game.isGameOver = true →
      move m (-1) = m ∧ move m 1 = m ∧ rotate m = m ∧ hardDrop m f = m := by
  intro m f h
  rcases h with h | h | h <;>
    exact ⟨by simp [move, h], by simp [move, h], by simp [rotate, h],
           by simp [hardDrop, h]⟩

/-- Sample piece: the horizontal I piece at its spawn position. -/
def P0 : Piece := { shape := [[1, 1, 1, 1]], color := "#00f5ff", x := 3, y := 0 }

/-- The initial machine with both determinized random pieces equal to `P0`:
`isRunning = false`, `isPaused = false`, `isGameOver = false`. -/
def M0 : Machine := initMachine P0 P0

/-- C2 counterexample: in the initial state (`running = false`,
`paused = false`, `gameOver = false`), a player soft-drop action still moves
the piece down one row, so the state is not preserved: `drop` (reached from
`handleAction "softdrop"`) checks only `isPaused`/`isGameOver`, never
`isRunning`. -/
theorem c2_softdrop_counterexample :
    M0.game.isRunning = false ∧ M0.game.isPaused = false ∧
    M0.game.isGameOver = false ∧
    (handleAction M0 "softdrop" P0 P0).game.piece.y = 1 ∧
    M0.game.piece.y = 0 ∧
    ¬ ((handleAction M0 "softdrop" P0 P0).game.piece = M0.game.piece) := by
  refine ⟨rfl, rfl, rfl, by decide, rfl, ?_⟩
  intro h
  have hy := congrArg Piece.y h
  revert hy
  decide

/-- C2 (amended): the precondition actually enforced on a player soft-drop is
`!paused && !gameOver` only — `running` is not checked.  Under a violated
precondition (`paused` or `gameOver`) the player soft-drop returns the
machine unchanged. -/
theorem c2_softdrop_precondition :
    ∀ (m : Machine) (p q : Piece),
      m.game.isPaused = true ∨ m.game.isGameOver = true →
      handleAction m "softdrop" p q = m := by
  intro m p q h
  show drop m p = m
  exact drop_noop m p h

/-- C8: `start` on a mid-flight, not-over run (`running = true`,
`gameOver = false`) preserves board, color board, active piece, queued next
piece, score, lines and level, merely (re)asserting `running = true` and
`paused = false`; while with no live run (`running = false`) or after game
over (`gameOver = true`) it begins a fresh run: empty boards, the two freshly
generated pieces, and score/lines/level reset to 0/0/1. -/
theorem c8_start_behavior :
    (∀ (m : Machine) (p q : Piece),
      m.game.isRunning = true → m.game.isGameOver = false →
      (startGame m p q).game.board = m.game.board ∧
      (startGame m p q).game.boardColors = m.game.boardColors ∧
      (startGame m p q).game.piece = m.game.piece ∧
      (startGame m p q).game.nextPiece = m.game.nextPiece ∧
      (startGame m p q).game.score = m.game.score ∧
      (startGame m p q).game.lines = m.game.lines ∧
      (startGame m p q).game.level = m.game.level ∧
      (startGame m p q).game.isRunning = true ∧
      (startGame m p q).game.isPaused = false)
    ∧ (∀ (m : Machine) (p q : Piece),
      m.game.isRunning = false ∨ m.game.isGameOver = true →
      (startGame m p q).game.board = createEmptyBoard ∧
      (startGame m p q).game.boardColors = createEmptyColorBoard ∧
      (startGame m p q).game.piece = p ∧
      (startGame m p q).game.nextPiece = q ∧
      (startGame m p q).game.score = 0 ∧
      (startGame m p q).game.lines = 0 ∧
      (startGame m p q).game.level = 1 ∧
      (startGame m p q).game.isRunning = true ∧
      (startGame m p q).game.isPaused = false ∧
      (startGame m p q).game.isGameOver = false) := by
  constructor
  · intro m p q hr hg
    simp [startGame, hr, hg]
  · intro m p q h
    rcases h with h | h <;> simp [startGame, h]

/-- C10: the relay's control handler forwards the action payload unmodified
to every currently connected peer other than the sender, never back to the
sender, and leaves the relay state untouched. -/
theorem c10_relay_broadcast :
    ∀ (st : RelayState) (sender : Nat) (action : String),
      (onControl st sender action).1 = st ∧
      (∀ pr ∈ (onControl st sender action).2,
        pr.2 = action ∧ pr.1 ∈ st.peers ∧ pr.1 ≠ sender) ∧
      (∀ p ∈ st.peers, p ≠ sender →
        (p, action) ∈ (onControl st sender action).2) := by
  intro st sender action
  refine ⟨rfl, ?_, ?_⟩
  · intro pr hpr
    simp only [onControl, List.mem_map, List.mem_filter] at hpr
    obtain ⟨p, ⟨hp, hne⟩, rfl⟩ := hpr
    exact ⟨rfl, hp, by simpa using hne⟩
  · intro p hp hne
    simp only [onControl, List.mem_map, List.mem_filter]
    exact ⟨p, ⟨hp, by simpa using hne⟩, rfl⟩

/-- Placement of the rotated piece shifted horizontally by `o`. -/
def rotPlace (m : Machine) (o : Int) : Piece :=
  { m.game.piece with shape := rotateMatrix m.game.piece.shape,
                      x := m.game.piece.x + o }

lemma rotPlace_zero (m : Machine) :
    rotPlace m 0 = { m.game.piece with shape := rotateMatrix m.game.piece.shape } := by
  simp [rotPlace]

lemma rotate_char (m : Machine) (hr : m.game.isRunning = true)
    (hp : m.game.isPaused = false) (hg : m.game.isGameOver = false) :
    rotate m =
      match (((0 : Int) :: kickOffsets).find?
          (fun o => !(collide (rotPlace m o) m.game.board))) with
      | some o => { m with game := { m.game with piece := rotPlace m o } }
      | none => m := by
  have e0 : rotPlace m 0 =
      { m.game.piece with shape := rotateMatrix m.game.piece.shape } :=
    rotPlace_zero m
  unfold rotate
  rw [if_neg (by simp [hr, hp, hg])]
  dsimp only
  cases hc0 : collide
      { m.game.piece with shape := rotateMatrix m.game.piece.shape }
      m.game.board with
  | false =>
    rw [List.find?_cons_of_pos _ (by simp [e0, hc0])]
    simp [e0]
  | true =>
    rw [List.find?_cons_of_neg _ (by simp [e0, hc0])]
    simp only [Bool.not_true]
    rw [if_neg (by simp)]
    rfl

/-- C4: under the play precondition, `rotate` computes the clockwise rotation
(the transpose of the cell matrix with every row reversed), tries it at the
current origin and then at horizontal offsets -1, +1, -2, +2 in that fixed
order (expressed as `find?` over the candidate list), adopts the first
non-colliding placement, and when all five candidates collide leaves the
machine unchanged. -/
theorem c4_rotate_wallkick :
    ∀ (m : Machine),
      m.game.isRunning = true → m.game.isPaused = false → m.game.isGameOver = false →
      (rotateMatrix m.game.piece.shape = rotateCWspec m.game.piece.shape) ∧
      (∀ o : Int,
        (((0 : Int) :: kickOffsets).find?
            (fun o => !(collide (rotPlace m o) m.game.board))) = some o →
        rotate m = { m with game := { m.game with piece := rotPlace m o } } ∧
        collide (rotPlace m o) m.game.board = false) ∧
      ((∀ o ∈ ((0 : Int) :: kickOffsets), collide (rotPlace m o) m.game.board = true) →
        rotate m = m) := by
  intro m hr hp hg
  refine ⟨?_, ?_, ?_⟩
  · simp [rotateMatrix, rotateCWspec, transposeSpec, List.map_map, Function.comp]
  · intro o hfind
    rw [rotate_char m hr hp hg, hfind]
    have hpo := List.find?_some hfind
    exact ⟨rfl, by simpa using hpo⟩
  · intro hall
    have hnone : (((0 : Int) :: kickOffsets).find?
        (fun o => !(collide (rotPlace m o) m.game.board))) = none := by
      rw [List.find?_eq_none]
      intro x hx
      simp [hall x hx]
    rw [rotate_char m hr hp hg, hnone]

lemma mem_getD_idx {α : Type} (d : α) :
    ∀ (l : List α) (a : α), a ∈ l → ∃ i, i < l.length ∧ l.getD i d = a := by
  intro l
  induction l with
  | nil => intro a h; cases h
  | cons b t ih =>
    intro a h
    rcases List.mem_cons.mp h with h | h
    · exact ⟨0, by simp, by simp [h]⟩
    · rcases ih a h with ⟨i, hi, hg⟩
      exact ⟨i + 1, by simpa using Nat.succ_lt_succ hi, by simpa using hg⟩

lemma collide_of_low (p : Piece) (b : List (List Nat))
    (hocc : shapeOccupied p.shape = true) (hy : (ROWS : Int) ≤ p.y) :
    collide p b = true := by
  unfold shapeOccupied at hocc
  rw [List.any_eq_true] at hocc
  obtain ⟨row, hrow, hcell⟩ := hocc
  rw [List.any_eq_true] at hcell
  obtain ⟨c, hc, hcne⟩ := hcell
  obtain ⟨i, hi, hgi⟩ := mem_getD_idx [] p.shape row hrow
  obtain ⟨j, hj, hgj⟩ := mem_getD_idx 0 row c hc
  unfold collide
  rw [List.any_eq_true]
  refine ⟨i, List.mem_range.mpr hi, ?_⟩
  dsimp only
  rw [hgi, List.any_eq_true]
  refine ⟨j, List.mem_range.mpr hj, ?_⟩
  have hle : (ROWS : Int) ≤ p.y + (i : Int) := by omega
  have hne : row.getD j 0 ≠ 0 := by
    rw [hgj]
    simpa using hcne
  simp only [List.getD_eq_getElem?_getD] at hne ⊢
  simp [hle, hne]

lemma descend_y (fuel : Nat) :
    ∀ (p : Piece) (b : List (List Nat)),
      (descend fuel p b).1.y = p.y + ((descend fuel p b).2 : Int) := by
  induction fuel with
  | zero => intro p b; simp [descend]
  | succ fuel ih =>
    intro p b
    unfold descend
    split
    · simp
    · dsimp only
      rw [ih]
      push_cast
      ring

lemma descend_collide (fuel : Nat) :
    ∀ (p : Piece) (b : List (List Nat)),
      shapeOccupied p.shape = true →
      ((ROWS : Int) - p.y).toNat + 1 ≤ fuel →
      collide { (descend fuel p b).1 with y := (descend fuel p b).1.y + 1 } b
        = true := by
  induction fuel with
  | zero => intro p b _ hf; omega
  | succ fuel ih =>
    intro p b hocc hf
    unfold descend
    split
    · next h => exact h
    · next h =>
      dsimp only
      have hlt : p.y < (ROWS : Int) := by
        by_contra hge
        push_neg at hge
        refine h (collide_of_low { p with y := p.y + 1 } b hocc ?_)
        show (ROWS : Int) ≤ p.y + 1
        omega
      refine ih { p with y := p.y + 1 } b hocc ?_
      show ((ROWS : Int) - (p.y + 1)).toNat + 1 ≤ fuel
      omega

lemma drop_locked_eq (m : Machine) (f : Piece)
    (hp : m.game.isPaused = false) (hg : m.game.isGameOver = false)
    (hc : collide { m.game.piece with y := m.game.piece.y + 1 } m.game.board = true)
    (hy : 0 < m.game.piece.y) :
    drop m f = dropLocked m f := by
  unfold drop
  rw [if_neg (by simp [hp, hg]), if_pos hc, if_neg (not_le.mpr hy)]

/-- C5: a lock that clears `n` lines at level `L` adds exactly
`[0,100,300,500,800][n] * L` to the score, and a hard drop that descends `d`
rows adds exactly `2 * d` points before the final lock-triggering gravity
step, independent of that step's own line-clear bonus. -/
theorem c5_scoring :
    (∀ (m : Machine) (f : Piece),
      m.game.isPaused = false → m.game.isGameOver = false →
      collide { m.game.piece with y := m.game.piece.y + 1 } m.game.board = true →
      0 < m.game.piece.y →
      collide m.game.piece m.game.board = false →
      (clearLines (mergeCells m.game.piece m.game.board m.game.boardColors).1
          (mergeCells m.game.piece m.game.board m.game.boardColors).2).2.2 ≤ 4 →
      (drop m f).game.score =
        m.game.score +
          linePoints.getD
            ((clearLines (mergeCells m.game.piece m.game.board m.game.boardColors).1
                (mergeCells m.game.piece m.game.board m.game.boardColors).2).2.2) 0 *
          m.game.level)
    ∧ (∀ (m : Machine) (f : Piece),
      m.game.isRunning = true → m.game.isPaused = false → m.game.isGameOver = false →
      (descend (hardFuel m.game.piece) m.game.piece m.game.board).1.y =
        m.game.piece.y +
          ((descend (hardFuel m.game.piece) m.game.piece m.game.board).2 : Int) ∧
      hardDrop m f =
        drop { m with game := { m.game with
          piece := (descend (hardFuel m.game.piece) m.game.piece m.game.board).1,
          score := m.game.score +
            2 * (descend (hardFuel m.game.piece) m.game.piece m.game.board).2 } } f ∧
      (shapeOccupied m.game.piece.shape = true →
        collide
          { (descend (hardFuel m.game.piece) m.game.piece m.game.board).1 with
            y := (descend (hardFuel m.game.piece) m.game.piece m.game.board).1.y + 1 }
          m.game.board = true)) := by
  constructor
  · intro m f hp hg hc hy hval hn4
    rw [drop_locked_eq m f hp hg hc hy]
    unfold dropLocked
    dsimp only
    split
    · rfl
    · next h =>
      rw [Nat.eq_zero_of_not_pos h]
      simp [linePoints]
  · intro m f hr hp hg
    refine ⟨descend_y _ _ _, ?_, ?_⟩
    · unfold hardDrop
      rw [if_neg (by simp [hr, hp, hg])]
    · intro hocc
      exact descend_collide (hardFuel m.game.piece) m.game.piece m.game.board hocc
        (by unfold hardFuel; omega)

/-! ### Level/lines invariant -/

/-- The level bookkeeping invariant of a game state. -/
def LevelInv (g : GameState) : Prop := g.level = g.lines / 10 + 1

lemma levelInv_drop (m : Machine) (f : Piece) (h : LevelInv m.game) :
    LevelInv (drop m f).game := by
  unfold drop
  split
  · exact h
  · split
    · split
      · exact h
      · unfold dropLocked LevelInv
        dsimp only
        split
        · rfl
        · exact h
    · exact h

lemma levelInv_move (m : Machine) (d : Int) (h : LevelInv m.game) :
    LevelInv (move m d).game := by
  unfold move
  dsimp only
  split_ifs <;> exact h

lemma levelInv_rotate (m : Machine) (h : LevelInv m.game) :
    LevelInv (rotate m).game := by
  unfold rotate
  dsimp only
  split
  · exact h
  · split
    · exact h
    · split <;> exact h

lemma levelInv_hardDrop (m : Machine) (f : Piece) (h : LevelInv m.game) :
    LevelInv (hardDrop m f).game := by
  unfold hardDrop
  split
  · exact h
  · exact levelInv_drop _ f h

lemma levelInv_start (m : Machine) (p q : Piece) (h : LevelInv m.game) :
    LevelInv (startGame m p q).game := by
  unfold startGame
  dsimp only
  split
  · simp [LevelInv]
  · exact h

lemma levelInv_pause (m : Machine) (h : LevelInv m.game) :
    LevelInv (pauseGame m).game := by
  unfold pauseGame
  dsimp only
  split_ifs <;> exact h

/-- C7: in every reachable state `level = floor(lines / 10) + 1`, and at all
three sites that (re)schedule the gravity timer — `startGame`, a resuming
`pauseGame`, and a gravity-step lock that cleared lines while a timer was
running — the scheduled interval is `max(100, 700 - (level - 1) * 50)`
milliseconds computed from the state's level at scheduling time. -/
theorem c7_level_and_speed :
    (∀ (m : Machine), Reach m → m.game.level = m.game.lines / 10 + 1)
    ∧ (∀ (m : Machine) (p q : Piece),
        (startGame m p q).dropInterval =
          some (speed (startGame m p q).game.level))
    ∧ (∀ (m : Machine),
        m.game.isRunning = true → m.game.isGameOver = false →
        m.game.isPaused = true →
        (pauseGame m).dropInterval = some (speed (pauseGame m).game.level))
    ∧ (∀ (m : Machine) (f : Piece),
        m.game.isPaused = false → m.game.isGameOver = false →
        collide { m.game.piece with y := m.game.piece.y + 1 } m.game.board = true →
        0 < m.game.piece.y →
        0 < (clearLines (mergeCells m.game.piece m.game.board m.game.boardColors).1
              (mergeCells m.game.piece m.game.board m.game.boardColors).2).2.2 →
        m.dropInterval.isSome = true →
        (drop m f).dropInterval = some (speed ((drop m f).game.level))) := by
  refine ⟨?_, ?_, ?_, ?_⟩
  · intro m h
    induction h with
    | init p q => simp [initMachine]
    | step_drop m f _ ih => exact levelInv_drop m f ih
    | step_move m d _ ih => exact levelInv_move m d ih
    | step_rotate m _ ih => exact levelInv_rotate m ih
    | step_hard m f _ ih => exact levelInv_hardDrop m f ih
    | step_start m p q _ ih => exact levelInv_start m p q ih
    | step_pause m _ ih => exact levelInv_pause m ih
    | step_restart m p q _ ih => simp [restartGame]
  · intro m p q
    unfold startGame
    dsimp only
  · intro m hr hg hp
    unfold pauseGame
    rw [if_neg (by simp [hr, hg])]
    dsimp only
    rw [hp]
    rfl
  · intro m f hp hg hc hy hn hti
    rw [drop_locked_eq m f hp hg hc (by omega)]
    unfold dropLocked
    dsimp only
    rw [if_pos hn, if_pos hn, if_pos hti]

/-! ### Characterization of the line-clearing loop -/

lemma isFullRow_emptyRow : isFullRow emptyRow = false := by decide

lemma take_succ_getD {α : Type} (l : List α) (n : Nat) (d : α) (h : n < l.length) :
    l.take (n + 1) = l.take n ++ [l.getD n d] := by
  rw [List.take_succ, List.getElem?_eq_getElem h, List.getD_eq_getElem l d h]
  rfl

lemma eraseIdx_take {α : Type} (l : List α) (n : Nat) (h : n ≤ l.length) :
    (l.eraseIdx n).take n = l.take n := by
  have hl : (l.take n).length = n := by rw [List.length_take]; omega
  calc (l.eraseIdx n).take n
      = (l.take n ++ l.drop (n + 1)).take n := by
        rw [List.eraseIdx_eq_take_drop_succ]
    _ = (l.take n ++ l.drop (n + 1)).take (l.take n).length := by rw [hl]
    _ = l.take n := List.take_left _ _

lemma eraseIdx_drop {α : Type} (l : List α) (n : Nat) (h : n ≤ l.length) :
    (l.eraseIdx n).drop n = l.drop (n + 1) := by
  have hl : (l.take n).length = n := by rw [List.length_take]; omega
  calc (l.eraseIdx n).drop n
      = (l.take n ++ l.drop (n + 1)).drop n := by
        rw [List.eraseIdx_eq_take_drop_succ]
    _ = (l.take n ++ l.drop (n + 1)).drop (l.take n).length := by rw [hl]
    _ = l.drop (n + 1) := List.drop_left _ _

lemma drop_getD_cons {α : Type} (l : List α) (n : Nat) (d : α) (h : n < l.length) :
    l.drop n = l.getD n d :: l.drop (n + 1) := by
  rw [List.getD_eq_getElem l d h]
  exact List.drop_eq_getElem_cons h

lemma clearLoop_spec (fuel : Nat) :
    ∀ (y : Nat) (board : List (List Nat)) (colors : List (List (Option String)))
      (k : Nat),
      y ≤ board.length →
      y + ((board.take y).filter isFullRow).length ≤ fuel →
      (clearLoop fuel board colors y k).1 =
        List.replicate ((board.take y).filter isFullRow).length emptyRow
          ++ (board.take y).filter (fun r => !(isFullRow r)) ++ board.drop y
      ∧ (clearLoop fuel board colors y k).2.2 =
        k + ((board.take y).filter isFullRow).length := by
  induction fuel with
  | zero =>
    intro y board colors k hy hf
    have hy0 : y = 0 := by omega
    subst hy0
    simp [clearLoop]
  | succ fuel ih =>
    intro y board colors k hy hf
    cases y with
    | zero => simp [clearLoop]
    | succ n =>
      have hn : n < board.length := by omega
      have htakeb : board.take (n + 1) = board.take n ++ [board.getD n []] :=
        take_succ_getD board n [] hn
      simp only [clearLoop]
      by_cases hfull : isFullRow (board.getD n []) = true
      · rw [if_pos hfull]
        have hlenE : (board.eraseIdx n).length = board.length - 1 := by
          rw [List.length_eraseIdx]
          simp [hn]
        have htake' : (emptyRow :: board.eraseIdx n).take (n + 1)
            = emptyRow :: board.take n := by
          rw [List.take_succ_cons, eraseIdx_take board n (le_of_lt hn)]
        have hdrop' : (emptyRow :: board.eraseIdx n).drop (n + 1)
            = board.drop (n + 1) := by
          rw [List.drop_succ_cons, eraseIdx_drop board n (le_of_lt hn)]
        have hfilt_full : ((board.take (n + 1)).filter isFullRow).length
            = ((board.take n).filter isFullRow).length + 1 := by
          rw [htakeb, List.filter_append, List.filter_cons_of_pos hfull,
            List.filter_nil, List.length_append]
          rfl
        have hfilt_non : (board.take (n + 1)).filter (fun r => !(isFullRow r))
            = (board.take n).filter (fun r => !(isFullRow r)) := by
          rw [htakeb, List.filter_append,
            List.filter_cons_of_neg (by rw [hfull]; decide), List.filter_nil,
            List.append_nil]
        have hfull'take :
            (((emptyRow :: board.eraseIdx n).take (n + 1)).filter isFullRow).length
            = ((board.take n).filter isFullRow).length := by
          rw [htake', List.filter_cons_of_neg (by simp [isFullRow_emptyRow])]
        obtain ⟨ihb, ihc⟩ := ih (n + 1) (emptyRow :: board.eraseIdx n)
          (emptyColorRow :: colors.eraseIdx n) (k + 1)
          (by simp [hlenE]; omega)
          (by rw [hfull'take]; omega)
        constructor
        · rw [ihb, hfull'take, hdrop', htake',
            List.filter_cons_of_pos (by simp [isFullRow_emptyRow]),
            hfilt_full, hfilt_non, List.replicate_succ']
          simp [List.append_assoc]
        · rw [ihc, hfull'take, hfilt_full]
          omega
      · rw [if_neg hfull]
        have hfb : isFullRow (board.getD n []) = false := by
          cases hx : isFullRow (board.getD n []) with
          | false => rfl
          | true => exact absurd hx hfull
        have hfilt_full : ((board.take (n + 1)).filter isFullRow).length
            = ((board.take n).filter isFullRow).length := by
          rw [htakeb, List.filter_append,
            List.filter_cons_of_neg (by rw [hfb]; decide), List.filter_nil,
            List.append_nil]
        have hfilt_non : (board.take (n + 1)).filter (fun r => !(isFullRow r))
            = (board.take n).filter (fun r => !(isFullRow r)) ++ [board.getD n []] := by
          rw [htakeb, List.filter_append,
            List.filter_cons_of_pos (by rw [hfb]; rfl), List.filter_nil]
        obtain ⟨ihb, ihc⟩ := ih n board colors k (by omega)
          (by rw [← hfilt_full]; omega)
        constructor
        · rw [ihb, hfilt_full, hfilt_non,
            drop_getD_cons board n [] hn]
          simp [List.append_assoc]
        · rw [ihc, hfilt_full]

/-- C3: on the 20-row board, `clearLines` returns exactly the number of
fully-occupied rows; the resulting board consists of that many fresh empty
rows prepended on top of all previously-non-full rows, which keep their
relative order (the full rows are removed). -/
theorem c3_clear_lines :
    ∀ (board : List (List Nat)) (colors : List (List (Option String))),
      board.length = ROWS →
      (clearLines board colors).2.2 = (board.filter isFullRow).length ∧
      (clearLines board colors).1 =
        List.replicate ((board.filter isFullRow).length) emptyRow
          ++ board.filter (fun r => !(isFullRow r)) := by
  intro board colors hlen
  have hfuel : ROWS + ((board.take ROWS).filter isFullRow).length ≤ 2 * ROWS + 2 := by
    have h1 := List.length_filter_le isFullRow (board.take ROWS)
    have h2 : (board.take ROWS).length ≤ ROWS := by
      rw [List.length_take]
      omega
    omega
  obtain ⟨hb, hk⟩ := clearLoop_spec (2 * ROWS + 2) ROWS board colors 0
    (by omega) hfuel
  unfold clearLines
  rw [← hlen] at hb hk
  rw [List.take_length, List.drop_length, List.append_nil] at hb
  rw [List.take_length] at hk
  rw [hlen] at hb hk
  exact ⟨by rw [hk]; omega, hb⟩

/-! ### Concrete machines used by the witnesses -/

def fullRow : List Nat := List.replicate COLS 1

def gapRow : List Nat := 0 :: List.replicate 9 1

/-- Running machine whose piece sits at the top with a full row right below:
the next gravity step triggers game over. -/
def MGO : Machine :=
  { game := { M0.game with board := createEmptyBoard.set 1 fullRow,
                           isRunning := true },
    dropInterval := some 700 }

/-- Running machine with score 7 and level 3 whose single-cell piece is about
to complete the bottom row. -/
def M5 : Machine :=
  { game := { M0.game with board := createEmptyBoard.set 19 gapRow,
                           piece := { shape := [[1]], color := "#ffffff",
                                      x := 0, y := 19 },
                           score := 7, level := 3, isRunning := true },
    dropInterval := some 700 }

/-- Running machine holding the T piece in open space. -/
def MR : Machine :=
  { game := { M0.game with
      piece := { shape := [[0, 1, 0], [1, 1, 1]], color := "#a855f7",
                 x := 4, y := 5 },
      isRunning := true },
    dropInterval := some 700 }

/-- Paused machine. -/
def MP : Machine :=
  { game := { M0.game with isRunning := true, isPaused := true },
    dropInterval := none }

/-- Board with exactly two full rows (indices 17 and 19). -/
def testBoard : List (List Nat) := (createEmptyBoard.set 19 fullRow).set 17 fullRow

/-- Witness for the game-over transition of the gravity step. -/
theorem c1_witness :
    collide { MGO.game.piece with y := MGO.game.piece.y + 1 } MGO.game.board = true ∧
    MGO.game.isRunning = true ∧
    topRowIdx MGO.game.piece ≤ 0 ∧
    drop MGO P0 =
      { MGO with game := { MGO.game with isGameOver := true },
                 dropInterval := none } :=
  ⟨by decide, rfl, by decide,
   c1_game_over_trigger.1 MGO P0 rfl rfl (by decide) (by decide) (by decide)⟩

/-- Witness for the amended soft-drop precondition: a paused machine is left
unchanged. -/
theorem c2_witness :
    MP.game.isPaused = true ∧ handleAction MP "softdrop" P0 P0 = MP :=
  ⟨rfl, c2_softdrop_precondition MP P0 P0 (Or.inl rfl)⟩

/-- Witness for the line-clearing characterization on a board with two full
rows. -/
theorem c3_witness :
    testBoard.length = ROWS ∧
    ((clearLines testBoard createEmptyColorBoard).2.2 =
        (testBoard.filter isFullRow).length ∧
      (clearLines testBoard createEmptyColorBoard).1 =
        List.replicate ((testBoard.filter isFullRow).length) emptyRow
          ++ testBoard.filter (fun r => !(isFullRow r))) :=
  ⟨by decide, c3_clear_lines testBoard createEmptyColorBoard (by decide)⟩

/-- Witness for rotation: the T piece in open space rotates in place (offset
0 accepted first). -/
theorem c4_witness :
    (((0 : Int) :: kickOffsets).find?
        (fun o => !(collide (rotPlace MR o) MR.game.board))) = some 0 ∧
    rotate MR = { MR with game := { MR.game with piece := rotPlace MR 0 } } ∧
    collide (rotPlace MR 0) MR.game.board = false :=
  ⟨by decide, (c4_rotate_wallkick MR rfl rfl rfl).2.1 0 (by decide)⟩

/-- Witness for the scoring rules: locking one cleared line at level 3 adds
100 * 3, and the hard-drop equation holds on the same machine. -/
theorem c5_witness :
    collide { M5.game.piece with y := M5.game.piece.y + 1 } M5.game.board = true ∧
    (drop M5 P0).game.score =
      M5.game.score +
        linePoints.getD
          ((clearLines (mergeCells M5.game.piece M5.game.board M5.game.boardColors).1
              (mergeCells M5.game.piece M5.game.board M5.game.boardColors).2).2.2) 0 *
        M5.game.level ∧
    hardDrop M5 P0 =
      drop { M5 with game := { M5.game with
        piece := (descend (hardFuel M5.game.piece) M5.game.piece M5.game.board).1,
        score := M5.game.score +
          2 * (descend (hardFuel M5.game.piece) M5.game.piece M5.game.board).2 } }
        P0 :=
  ⟨by decide,
   c5_scoring.1 M5 P0 rfl rfl (by decide) (by decide) (by decide) (by decide),
   (c5_scoring.2 M5 P0 rfl rfl rfl).2.1⟩

/-- Witness for the illegal-state no-op: the initial machine is not running,
and all four player actions leave it unchanged. -/
theorem c6_witness :
    M0.game.isRunning = false ∧
    (move M0 (-1) = M0 ∧ move M0 1 = M0 ∧ rotate M0 = M0 ∧ hardDrop M0 P0 = M0) :=
  ⟨rfl, c6_illegal_state_noop M0 P0 (Or.inl rfl)⟩

/-- Witness for the level formula on a reachable state and for the timer
formula at a scheduling site. -/
theorem c7_witness :
    M0.game.level = M0.game.lines / 10 + 1 ∧
    (startGame M0 P0 P0).dropInterval = some (speed (startGame M0 P0 P0).game.level) :=
  ⟨c7_level_and_speed.1 M0 (Reach.init P0 P0), c7_level_and_speed.2.1 M0 P0 P0⟩

/-- Witness for start on a mid-flight run (score preserved) and on a dead run
(level reset to 1). -/
theorem c8_witness :
    MR.game.isRunning = true ∧
    (startGame MR P0 P0).game.score = MR.game.score ∧
    (startGame M0 P0 P0).game.level = 1 :=
  ⟨rfl, (c8_start_behavior.1 MR P0 P0 rfl rfl).2.2.2.2.1,
   (c8_start_behavior.2 M0 P0 P0 (Or.inl rfl)).2.2.2.2.2.2.1⟩

/-- Witness for the game-over frame condition on the concrete game-over
machine. -/
theorem c9_witness :
    collide { MGO.game.piece with y := MGO.game.piece.y + 1 } MGO.game.board = true ∧
    (drop MGO P0).game.board = MGO.game.board ∧
    (drop MGO P0).game.score = MGO.game.score ∧
    (drop MGO P0).game.isGameOver = true ∧
    (drop MGO P0).dropInterval = none := by
  have h := c9_game_over_frame MGO P0 rfl rfl (by decide) (by decide)
  exact ⟨by decide, h.1, h.2.2.1, h.2.2.2.2.2.2.2.2.1, h.2.2.2.2.2.2.2.2.2⟩

/-- Witness for the relay broadcast with peers 1, 2, 3 and sender 2. -/
theorem c10_witness :
    (onControl ⟨[1, 2, 3]⟩ 2 "left").1 = (⟨[1, 2, 3]⟩ : RelayState) ∧
    (1, "left") ∈ (onControl ⟨[1, 2, 3]⟩ 2 "left").2 :=
  ⟨(c10_relay_broadcast ⟨[1, 2, 3]⟩ 2 "left").1,
   (c10_relay_broadcast ⟨[1, 2, 3]⟩ 2 "left").2.2 1 (by decide) (by decide)⟩
